import Mathlib

/-!
# Verification of the accessible-palette color core

Shallow embedding of the repository's accessible-color computation engine:
the hex color utility (`src/lib/color/utils.ts`), the WCAG contrast
calculator and matrix builder (`src/lib/color/contrast.ts`), and the
nearest-accessible-color search (`suggestions.ts`).

JavaScript strings are modelled as `String`/`List Char`; JavaScript numbers
are modelled as real numbers (`ℝ`), with `ℚ`/`ℕ` used where the code only
ever manipulates exact values.  The external color-math library (culori)
is not part of the repository; where its behavior decides a claim it is
modelled from the spec (each such definition is marked `Modelled from the
spec:`); where it does not, the development is parametric in it.
-/

namespace AccPal

/-! ## Hex color utility (`src/lib/color/utils.ts`) -/

/-- Character class `[0-9A-Fa-f]` from the validation regex
`/^#?([0-9A-Fa-f]{3}|[0-9A-Fa-f]{6})$/`, expressed on character codes
(`'0'` = 48, `'9'` = 57, `'A'` = 65, `'F'` = 70, `'a'` = 97, `'f'` = 102). -/
def isHexChar (c : Char) : Bool :=
  (48 ≤ c.toNat && c.toNat ≤ 57) || (65 ≤ c.toNat && c.toNat ≤ 70) ||
    (97 ≤ c.toNat && c.toNat ≤ 102)

/-- `value.startsWith('#') ? value.slice(1) : value` — drop one leading `#`. -/
def stripHashL : List Char → List Char
  | [] => []
  | c :: rest => if c = '#' then rest else c :: rest

/-- `isValidHex` from `utils.ts`: an optional `#` followed by exactly 3 or 6
hex digits (the regex `/^#?([0-9A-Fa-f]{3}|[0-9A-Fa-f]{6})$/`). -/
def isValidHexL (l : List Char) : Bool :=
  let h := stripHashL l
  (h.length == 3 || h.length == 6) && h.all isHexChar

def isValidHex (s : String) : Bool := isValidHexL s.toList

/-- JavaScript `toUpperCase` restricted to ASCII, which is all the validated
hex strings can contain: `a`–`z` (codes 97–122) map down by 32, everything
else is unchanged. -/
def jsToUpperChar (c : Char) : Char :=
  if 97 ≤ c.toNat ∧ c.toNat ≤ 122 then Char.ofNat (c.toNat - 32) else c

def jsToUpperL (l : List Char) : List Char := l.map jsToUpperChar

/-- `hex.split('').map(char => char + char).join('')` — double each digit. -/
def doubleChars (l : List Char) : List Char := l.flatMap fun c => [c, c]

/-- `normalizeHex` from `utils.ts`: `null` on invalid input; a valid 3-digit
hex is expanded by doubling each digit then uppercased; a valid 6-digit hex
is uppercased; the optional `#` is removed. -/
def normalizeHexL (l : List Char) : Option (List Char) :=
  if isValidHexL l then
    let hex := stripHashL l
    if hex.length = 3 then some (jsToUpperL (doubleChars hex))
    else some (jsToUpperL hex)
  else none

def normalizeHex (s : String) : Option String :=
  (normalizeHexL s.toList).map String.mk

example : normalizeHex "#abc" = some "AABBCC" := by decide
example : normalizeHex "f00" = some "FF0000" := by decide
example : normalizeHex "zzzzzz" = none := by decide
example : normalizeHex "#AbC123" = some "ABC123" := by decide

/-! ## Parsing hex colors to RGB

Modelled from the spec: the repository computes contrast via culori's
`wcagContrast`, an external library function.  The spec (§3 "Color Value",
§4.2) fixes its meaning: a color value is a case-insensitive 3- or 6-digit
hex triple (3-digit shorthand expands by digit doubling), and the ratio is
the WCAG relative-luminance formula.  `parseHexColor` is the corresponding
hex-to-sRGB reader. -/

/-- Numeric value of one hex digit (`0`–`9`, `A`–`F`, `a`–`f`). -/
def hexDigitVal (c : Char) : Option ℕ :=
  if 48 ≤ c.toNat ∧ c.toNat ≤ 57 then some (c.toNat - 48)
  else if 65 ≤ c.toNat ∧ c.toNat ≤ 70 then some (c.toNat - 55)
  else if 97 ≤ c.toNat ∧ c.toNat ≤ 102 then some (c.toNat - 87)
  else none

/-- One 8-bit channel from two hex digits. -/
def hexByte (hi lo : Char) : Option ℕ := do
  let h ← hexDigitVal hi
  let l ← hexDigitVal lo
  pure (16 * h + l)

/-- An sRGB color with 8-bit channels. -/
structure Rgb where
  r : ℕ
  g : ℕ
  b : ℕ
  deriving DecidableEq

/-- Modelled from the spec: culori's hex parser — optional `#`,
case-insensitive, 6-digit `RRGGBB` or 3-digit shorthand expanded by digit
doubling (spec §3 "Color Value"). -/
def parseHexColorL (l : List Char) : Option Rgb :=
  match stripHashL l with
  | [r1, r2, g1, g2, b1, b2] => do
      let r ← hexByte r1 r2
      let g ← hexByte g1 g2
      let b ← hexByte b1 b2
      pure ⟨r, g, b⟩
  | [r1, g1, b1] => do
      let r ← hexByte r1 r1
      let g ← hexByte g1 g1
      let b ← hexByte b1 b1
      pure ⟨r, g, b⟩
  | _ => none

def parseHexColor (s : String) : Option Rgb := parseHexColorL s.toList

example : parseHexColor "#ffffff" = some ⟨255, 255, 255⟩ := by decide
example : parseHexColor "#FFFFFF" = some ⟨255, 255, 255⟩ := by decide
example : parseHexColor "#000000" = some ⟨0, 0, 0⟩ := by decide
example : parseHexColor "808080" = some ⟨128, 128, 128⟩ := by decide
example : parseHexColor "#xyz" = none := by decide

/-! ## WCAG contrast ratio

Modelled from the spec (§4.2): linearize each sRGB channel (divide by 255,
piecewise gamma-decoding with breakpoint 0.03928), combine with luminance
weights 0.2126/0.7152/0.0722, then `(L_lighter + 0.05) / (L_darker + 0.05)`.
This is culori's `wcagLuminance`/`wcagContrast`, which the repository
imports. -/

/-- Piecewise sRGB gamma decoding with breakpoint 0.03928:
`c ≤ 0.03928 ? c / 12.92 : ((c + 0.055) / 1.055) ^ 2.4`. -/
noncomputable def gammaDecode (c : ℝ) : ℝ :=
  if c ≤ 0.03928 then c / 12.92 else ((c + 0.055) / 1.055) ^ (2.4 : ℝ)

/-- WCAG relative luminance of an 8-bit sRGB color. -/
noncomputable def relativeLuminance (c : Rgb) : ℝ :=
  0.2126 * gammaDecode (c.r / 255) + 0.7152 * gammaDecode (c.g / 255) +
    0.0722 * gammaDecode (c.b / 255)

/-- `(L_lighter + 0.05) / (L_darker + 0.05)`. -/
noncomputable def contrastOfLums (l1 l2 : ℝ) : ℝ :=
  (max l1 l2 + 0.05) / (min l1 l2 + 0.05)

/-- Modelled from the spec: culori's `wcagContrast` on hex color strings.
(On unparseable input culori produces NaN, which has no counterpart in `ℝ`;
the claims only concern valid hex colors, and `0` marks that case here.) -/
noncomputable def wcagContrast (fg bg : String) : ℝ :=
  match parseHexColor fg, parseHexColor bg with
  | some a, some b => contrastOfLums (relativeLuminance a) (relativeLuminance b)
  | _, _ => 0

/-- `Math.round` on a real argument: JavaScript rounds half up, which is
Mathlib's `round` (`⌊x + 1/2⌋`). `round2` is
`Math.round(ratio * 100) / 100`. -/
noncomputable def round2 (x : ℝ) : ℝ := (round (x * 100) : ℤ) / 100

/-- `calculateContrast` from `contrast.ts`: prefix `#`, take culori's
WCAG contrast ratio, round to 2 decimal places. -/
noncomputable def calculateContrast (foreground background : String) : ℝ :=
  round2 (wcagContrast ("#" ++ foreground) ("#" ++ background))

/-! ## Nearest-accessible-color search (`suggestions.ts`)

The search manipulates colors in OKLCH space through culori's `oklch` and
`formatHex`.  Those conversions are external library code, so the search is
embedded parametrically in them (`ok` reads a hex string to OKLCH, `fh`
writes an OKLCH color back to a `#rrggbb` string, possibly failing); the
concrete instances used by `contrast.ts` are modelled from the spec
further below. -/

/-- culori's `Oklch` color: lightness, chroma, hue. -/
structure Oklch where
  l : ℝ
  c : ℝ
  h : ℝ

/-- `{ ...fg, l: mid }` — replace the lightness, keep chroma and hue. -/
def setL (col : Oklch) (l : ℝ) : Oklch := { col with l := l }

/-- `MAX_ITERATIONS = 50` from `suggestions.ts`. -/
def MAX_ITERATIONS : ℕ := 50

/-- `LIGHTNESS_PRECISION = 0.001` from `suggestions.ts`. -/
noncomputable def LIGHTNESS_PRECISION : ℝ := 0.001

open Classical in
/-- The `while` loop of `searchLightness`, instrumented: the `ℕ` argument is
the remaining iteration budget (`MAX_ITERATIONS - iterations`), and the
result carries the best candidate so far, the number of iterations actually
executed, and the final `(low, high)` bounds.  Each loop body tests the
midpoint lightness: if the formatted midpoint meets the target it becomes
the candidate and the bound moves toward the original lightness, otherwise
the bound moves away; `formatHex` failing breaks out of the loop. -/
noncomputable def searchLightnessAux (fg : Oklch) (bgColor : String) (targetRatio : ℝ)
    (shouldDarken : Prop) (fh : Oklch → Option String) :
    ℕ → ℝ → ℝ → Option Oklch → Option Oklch × ℕ × ℝ × ℝ
  | 0, low, high, best => (best, 0, low, high)
  | fuel + 1, low, high, best =>
      if high - low > LIGHTNESS_PRECISION then
        let mid := (low + high) / 2
        let testColor := setL fg mid
        match fh testColor with
        | none => (best, 1, low, high)
        | some testHex =>
            let ratio := wcagContrast testHex bgColor
            let next :=
              if ratio ≥ targetRatio then
                if shouldDarken then
                  searchLightnessAux fg bgColor targetRatio shouldDarken fh fuel mid high
                    (some testColor)
                else
                  searchLightnessAux fg bgColor targetRatio shouldDarken fh fuel low mid
                    (some testColor)
              else
                if shouldDarken then
                  searchLightnessAux fg bgColor targetRatio shouldDarken fh fuel low mid best
                else
                  searchLightnessAux fg bgColor targetRatio shouldDarken fh fuel mid high best
            (next.1, next.2.1 + 1, next.2.2)
      else (best, 0, low, high)

open Classical in
/-- `searchLightness` entered at its initial bounds: `[0, fg.l]` when
darkening, `[fg.l, 1]` when lightening, with no candidate and a fresh
iteration counter. -/
noncomputable def searchLightnessRun (fg : Oklch) (bgColor : String) (targetRatio : ℝ)
    (shouldDarken : Prop) (fh : Oklch → Option String) : Option Oklch × ℕ × ℝ × ℝ :=
  let low : ℝ := if shouldDarken then 0 else fg.l
  let high : ℝ := if shouldDarken then fg.l else 1
  searchLightnessAux fg bgColor targetRatio shouldDarken fh MAX_ITERATIONS low high none

/-- `searchLightness` from `suggestions.ts`: the best (closest-to-original)
passing lightness found, or `null`. -/
noncomputable def searchLightness (fg : Oklch) (bgColor : String) (targetRatio : ℝ)
    (shouldDarken : Prop) (fh : Oklch → Option String) : Option Oklch :=
  (searchLightnessRun fg bgColor targetRatio shouldDarken fh).1

/-- Number of loop iterations `searchLightness` executes. -/
noncomputable def searchSteps (fg : Oklch) (bgColor : String) (targetRatio : ℝ)
    (shouldDarken : Prop) (fh : Oklch → Option String) : ℕ :=
  (searchLightnessRun fg bgColor targetRatio shouldDarken fh).2.1

/-- Final `(low, high)` bounds when `searchLightness` stops. -/
noncomputable def searchFinalBounds (fg : Oklch) (bgColor : String) (targetRatio : ℝ)
    (shouldDarken : Prop) (fh : Oklch → Option String) : ℝ × ℝ :=
  (searchLightnessRun fg bgColor targetRatio shouldDarken fh).2.2

/-- `hexResult.replace('#', '')` — JavaScript `replace` with a string
pattern removes the first occurrence only. -/
def removeFirstHash : List Char → List Char
  | [] => []
  | c :: rest => if c = '#' then rest else c :: removeFirstHash rest

/-- `hexResult.replace('#', '').toUpperCase()`. -/
def jsUpperNoHash (s : String) : String :=
  String.mk (jsToUpperL (removeFirstHash s.toList))

/-- `findNearestAccessible` from `suggestions.ts`, parametric in the OKLCH
conversions: parse the foreground (null on failure); return it unchanged if
the pair already meets the target; otherwise binary-search lightness away
from the background (darken when the foreground is lighter), falling back to
the opposite direction, and format the winner as uppercase 6-digit hex. -/
noncomputable def findNearestAccessibleG (ok : String → Option Oklch)
    (fh : Oklch → Option String) (foregroundHex backgroundHex : String)
    (targetRatio : ℝ) : Option String :=
  let fgColor := "#" ++ foregroundHex
  let bgColor := "#" ++ backgroundHex
  match ok fgColor with
  | none => none
  | some fg =>
      if wcagContrast fgColor bgColor ≥ targetRatio then some foregroundHex
      else
        let bgLightness := match ok bgColor with | some bg => bg.l | none => 0.5
        let shouldDarken := fg.l > bgLightness
        let result :=
          match searchLightness fg bgColor targetRatio shouldDarken fh with
          | some r => some r
          | none => searchLightness fg bgColor targetRatio (¬ shouldDarken) fh
        match result with
        | none => none
        | some r =>
            match fh r with
            | some hexResult => some (jsUpperNoHash hexResult)
            | none => none

/-- Modelled from the spec: culori's `oklch` reader is external library
code.  The spec (§3, §4.3) requires only that every parseable color has a
lightness in `[0, 1]` in a perceptually uniform lightness-chroma-hue space;
this model reads the hex to sRGB and takes the average channel as the
lightness (chroma and hue are never inspected by the search logic). -/
noncomputable def oklchM (s : String) : Option Oklch :=
  (parseHexColor s).map fun c => ⟨((c.r : ℝ) + c.g + c.b) / 765, 0, 0⟩

/-- Lowercase hex digit of `n < 16`, as culori's `formatHex` emits. -/
def toLowerHexDigit (n : ℕ) : Char :=
  if n < 10 then Char.ofNat (48 + n) else Char.ofNat (87 + n)

def byteToHex (n : ℕ) : List Char := [toLowerHexDigit (n / 16), toLowerHexDigit (n % 16)]

noncomputable def clamp01 (x : ℝ) : ℝ := max 0 (min 1 x)

/-- Modelled from the spec: culori's `formatHex` writer — converts back to
sRGB, clamping to the gamut boundary (spec §3, §4.3 step 7), and prints
`#rrggbb` in lowercase.  Matches `oklchM`'s grayscale reading. -/
noncomputable def formatHexM (c : Oklch) : Option String :=
  let byte := (round (clamp01 c.l * 255) : ℤ).toNat
  some (String.mk ('#' :: (byteToHex byte ++ byteToHex byte ++ byteToHex byte)))

/-- `findNearestAccessible` with the spec-modelled culori conversions. -/
noncomputable def findNearestAccessible (foregroundHex backgroundHex : String)
    (targetRatio : ℝ) : Option String :=
  findNearestAccessibleG oklchM formatHexM foregroundHex backgroundHex targetRatio

/-- The `'AA' | 'AAA'` target level. -/
inductive WcagLevel
  | AA
  | AAA
  deriving DecidableEq

/-- `getTargetRatio` from `suggestions.ts` (`isLarge` defaults to `false`
at every call site in the core): 3 for large text, else 4.5 for AA and 7
for AAA. -/
noncomputable def getTargetRatio (targetLevel : WcagLevel) (isLarge : Bool) : ℝ :=
  if isLarge then 3 else match targetLevel with | .AA => 4.5 | .AAA => 7

/-! ## Contrast results, matrix and summary (`contrast.ts`) -/

/-- `evaluateContrastRatio`'s result: pass/fail against the
`CONTRAST_THRESHOLDS` (AA normal 4.5, AAA normal 7, AA large 3, UI
component 3). -/
structure Evaluation where
  passesAA : Prop
  passesAAA : Prop
  passesAALarge : Prop
  passesUIComponent : Prop

/-- `evaluateContrastRatio` from `contrast.ts`. -/
def evaluateContrastRatio (ratio : ℝ) : Evaluation :=
  { passesAA := ratio ≥ 4.5
    passesAAA := ratio ≥ 7
    passesAALarge := ratio ≥ 3
    passesUIComponent := ratio ≥ 3 }

/-- The `ContrastResult` record from `src/types/index.ts`. -/
structure ContrastResult where
  foregroundId : String
  backgroundId : String
  ratio : ℝ
  apcaValue : Option ℝ
  passesAA : Prop
  passesAAA : Prop
  passesAALarge : Prop
  passesUIComponent : Prop
  suggestedFix : Option String

open Classical in
/-- `calculateContrastResult` from `contrast.ts`: ratio, the four pass
flags, and — only when the pair fails the active target level's normal-text
flag and the two ids differ — a suggested fix from the search at that
level's target ratio. -/
noncomputable def calculateContrastResult (foregroundId foregroundHex backgroundId
    backgroundHex : String) (targetLevel : WcagLevel) : ContrastResult :=
  let ratio := calculateContrast foregroundHex backgroundHex
  let evaluation := evaluateContrastRatio ratio
  let passes := match targetLevel with
    | .AA => evaluation.passesAA
    | .AAA => evaluation.passesAAA
  let suggestedFix : Option String :=
    if ¬ passes ∧ foregroundId ≠ backgroundId then
      findNearestAccessible foregroundHex backgroundHex (getTargetRatio targetLevel false)
    else none
  { foregroundId := foregroundId
    backgroundId := backgroundId
    ratio := ratio
    apcaValue := none
    passesAA := evaluation.passesAA
    passesAAA := evaluation.passesAAA
    passesAALarge := evaluation.passesAALarge
    passesUIComponent := evaluation.passesUIComponent
    suggestedFix := suggestedFix }

/-- A palette entry as the matrix builder sees it: an id and a hex value. -/
structure ColorEntry where
  id : String
  hex : String

/-- `generateContrastMatrix` from `contrast.ts`: one result for every
ordered pair of colors, foregrounds outermost. -/
noncomputable def generateContrastMatrix (colors : List ColorEntry)
    (targetLevel : WcagLevel) : List ContrastResult :=
  colors.flatMap fun foreground =>
    colors.map fun background =>
      calculateContrastResult foreground.id foreground.hex background.id
        background.hex targetLevel

/-- `findContrastResult` from `contrast.ts`: first result matching the
ordered id pair. -/
noncomputable def findContrastResult (matrix : List ContrastResult)
    (foregroundId backgroundId : String) : Option ContrastResult :=
  matrix.find? fun result =>
    result.foregroundId == foregroundId && result.backgroundId == backgroundId

/-- `getContrastSummary`'s result record. -/
structure ContrastSummary where
  total : ℕ
  passing : ℕ
  failing : ℕ
  percentage : ℤ

open Classical in
/-- `getContrastSummary` from `contrast.ts`: drop self pairs (same id on
both sides), count the pairs passing the active level, and report
`Math.round(passing / total * 100)`, with 0 instead of a division by zero
when there are no valid pairs. -/
noncomputable def getContrastSummary (matrix : List ContrastResult)
    (targetLevel : WcagLevel) : ContrastSummary :=
  let validPairs := matrix.filter fun result =>
    decide (result.foregroundId ≠ result.backgroundId)
  let passingPairs := validPairs.filter fun result =>
    decide (match targetLevel with
      | .AA => result.passesAA
      | .AAA => result.passesAAA)
  let total := validPairs.length
  let passing := passingPairs.length
  let failing := total - passing
  let percentage : ℤ := if total > 0 then round ((passing : ℚ) / total * 100) else 0
  ⟨total, passing, failing, percentage⟩

/-! ## Character-level lemmas for the hex utility -/

theorem char_toNat_ofNat {n : ℕ} (hv : n.isValidChar) : (Char.ofNat n).toNat = n := by
  simp [Char.ofNat, hv, Char.ofNatAux, Char.toNat, UInt32.toNat, BitVec.toNat_ofNatLt]

theorem char_eq_of_toNat_eq {a b : Char} (h : a.toNat = b.toNat) : a = b :=
  Char.eq_of_val_eq (UInt32.toNat.inj h)

theorem isHexChar_iff {c : Char} : isHexChar c = true ↔
    (48 ≤ c.toNat ∧ c.toNat ≤ 57) ∨ (65 ≤ c.toNat ∧ c.toNat ≤ 70) ∨
      (97 ≤ c.toNat ∧ c.toNat ≤ 102) := by
  simp only [isHexChar, Bool.or_eq_true, Bool.and_eq_true, decide_eq_true_eq]
  tauto

/-- A character already in normalized form: a digit or uppercase hex letter. -/
def isUpperHexChar (c : Char) : Bool :=
  (48 ≤ c.toNat && c.toNat ≤ 57) || (65 ≤ c.toNat && c.toNat ≤ 70)

theorem isUpperHexChar_iff {c : Char} : isUpperHexChar c = true ↔
    (48 ≤ c.toNat ∧ c.toNat ≤ 57) ∨ (65 ≤ c.toNat ∧ c.toNat ≤ 70) := by
  simp [isUpperHexChar, Bool.or_eq_true, Bool.and_eq_true, decide_eq_true_eq]

theorem jsToUpperChar_toNat (c : Char) : (jsToUpperChar c).toNat =
    if 97 ≤ c.toNat ∧ c.toNat ≤ 122 then c.toNat - 32 else c.toNat := by
  unfold jsToUpperChar
  by_cases h : 97 ≤ c.toNat ∧ c.toNat ≤ 122
  · have hv : (c.toNat - 32).isValidChar := Or.inl (by omega)
    simp [h, char_toNat_ofNat hv]
  · simp [h]

theorem isUpperHexChar_jsToUpperChar {c : Char} (h : isHexChar c = true) :
    isUpperHexChar (jsToUpperChar c) = true := by
  rw [isUpperHexChar_iff, jsToUpperChar_toNat]
  rcases isHexChar_iff.mp h with h' | h' | h' <;> split <;> omega

theorem isHexChar_of_isUpperHexChar {c : Char} (h : isUpperHexChar c = true) :
    isHexChar c = true := by
  rw [isHexChar_iff]
  rcases isUpperHexChar_iff.mp h with h' | h' <;> omega

theorem jsToUpperChar_fixed {c : Char} (h : isUpperHexChar c = true) :
    jsToUpperChar c = c := by
  have h' := isUpperHexChar_iff.mp h
  unfold jsToUpperChar
  rw [if_neg (by omega)]

theorem isUpperHexChar_ne_hash {c : Char} (h : isUpperHexChar c = true) : c ≠ '#' := by
  have h' := isUpperHexChar_iff.mp h
  intro hc
  rw [hc] at h'
  have h35 : '#'.toNat = 35 := by decide
  rw [h35] at h'
  omega

/-! ## List-level lemmas for the hex utility -/

theorem stripHashL_of_ne_hash {c : Char} {t : List Char} (h : c ≠ '#') :
    stripHashL (c :: t) = c :: t := by
  simp [stripHashL, h]

theorem mem_doubleChars {c : Char} {l : List Char} (h : c ∈ doubleChars l) : c ∈ l := by
  simp only [doubleChars, List.mem_flatMap] at h
  obtain ⟨a, ha, hc⟩ := h
  simp at hc
  rwa [hc]

theorem length_doubleChars (l : List Char) : (doubleChars l).length = 2 * l.length := by
  induction l with
  | nil => rfl
  | cons a t ih => simp [doubleChars, List.flatMap_cons] at ih ⊢; omega

theorem jsToUpperL_all_upper {l : List Char} (h : ∀ c ∈ l, isHexChar c = true) :
    ∀ c ∈ jsToUpperL l, isUpperHexChar c = true := by
  intro c hc
  simp only [jsToUpperL, List.mem_map] at hc
  obtain ⟨a, ha, rfl⟩ := hc
  exact isUpperHexChar_jsToUpperChar (h a ha)

theorem jsToUpperL_fixed {l : List Char} (h : ∀ c ∈ l, isUpperHexChar c = true) :
    jsToUpperL l = l := by
  unfold jsToUpperL
  induction l with
  | nil => rfl
  | cons a t ih =>
      simp only [List.map_cons]
      rw [jsToUpperChar_fixed (h a (List.mem_cons_self a t)),
        ih fun c hc => h c (List.mem_cons_of_mem a hc)]

theorem isValidHexL_iff {l : List Char} : isValidHexL l = true ↔
    ((stripHashL l).length = 3 ∨ (stripHashL l).length = 6) ∧
      ∀ c ∈ stripHashL l, isHexChar c = true := by
  simp [isValidHexL, List.all_eq_true, Bool.and_eq_true, Bool.or_eq_true, beq_iff_eq]

/-- The payload of a successful `normalizeHexL` run: six characters, each a
digit or an uppercase hex letter. -/
theorem normalizeHexL_shape {l lv : List Char} (h : normalizeHexL l = some lv) :
    lv.length = 6 ∧ ∀ c ∈ lv, isUpperHexChar c = true := by
  unfold normalizeHexL at h
  by_cases hv : isValidHexL l = true
  · rw [if_pos hv] at h
    obtain ⟨hlen, hall⟩ := isValidHexL_iff.mp hv
    by_cases h3 : (stripHashL l).length = 3
    · rw [if_pos h3] at h
      obtain rfl := (Option.some_inj.mp h)
      constructor
      · simp [jsToUpperL, length_doubleChars, h3]
      · exact jsToUpperL_all_upper fun c hc => hall c (mem_doubleChars hc)
    · rw [if_neg h3] at h
      obtain rfl := (Option.some_inj.mp h)
      have h6 : (stripHashL l).length = 6 := by omega
      constructor
      · simp [jsToUpperL, h6]
      · exact jsToUpperL_all_upper hall
  · rw [if_neg hv] at h
    exact absurd h (by simp)

/-- C9 — Hex normalization.  `normalizeHex` returns `null` exactly when the
string is not an optional `#` followed by 3 or 6 hex digits; a valid
3-digit input yields the 6-digit uppercase expansion obtained by doubling
each digit; a valid 6-digit input yields the uppercased digits with the
optional `#` removed. -/
theorem c9_normalizeHex_characterization (s : String) :
    (normalizeHex s = none ↔
      ¬ (((stripHashL s.toList).length = 3 ∨ (stripHashL s.toList).length = 6) ∧
          ∀ c ∈ stripHashL s.toList, isHexChar c = true)) ∧
    ((stripHashL s.toList).length = 3 → (∀ c ∈ stripHashL s.toList, isHexChar c = true) →
      normalizeHex s = some (String.mk (jsToUpperL (doubleChars (stripHashL s.toList))))) ∧
    ((stripHashL s.toList).length = 6 → (∀ c ∈ stripHashL s.toList, isHexChar c = true) →
      normalizeHex s = some (String.mk (jsToUpperL (stripHashL s.toList)))) := by
  refine ⟨⟨fun h hvalid => ?_, fun h => ?_⟩, fun h3 hall => ?_, fun h6 hall => ?_⟩
  · have hv : isValidHexL s.toList = true := isValidHexL_iff.mpr hvalid
    unfold normalizeHex normalizeHexL at h
    rw [if_pos hv] at h
    by_cases h3 : (stripHashL s.toList).length = 3 <;>
      simp only [h3, if_pos, if_neg, if_true, if_false] at h <;> simp at h
  · have hv : isValidHexL s.toList = false := by
      cases hb : isValidHexL s.toList
      · rfl
      · exact absurd (isValidHexL_iff.mp hb) h
    unfold normalizeHex normalizeHexL
    rw [hv]
    simp
  · have hv : isValidHexL s.toList = true := isValidHexL_iff.mpr ⟨Or.inl h3, hall⟩
    unfold normalizeHex normalizeHexL
    rw [if_pos hv, if_pos h3]
    rfl
  · have hv : isValidHexL s.toList = true := isValidHexL_iff.mpr ⟨Or.inr h6, hall⟩
    unfold normalizeHex normalizeHexL
    rw [if_pos hv, if_neg (by omega)]
    rfl

/-- Witness for C9: the spec's own normalization scenarios, via the
characterization theorem. -/
theorem c9_witness : normalizeHex "#abc" = some "AABBCC" ∧
    normalizeHex "f00" = some "FF0000" ∧ normalizeHex "zzzzzz" = none := by
  refine ⟨?_, ?_, ?_⟩
  · rw [(c9_normalizeHex_characterization "#abc").2.1 (by decide) (by decide)]
    decide
  · rw [(c9_normalizeHex_characterization "f00").2.1 (by decide) (by decide)]
    decide
  · exact (c9_normalizeHex_characterization "zzzzzz").1.mpr (by decide)

/-- C10 — Normalization is a closure onto its own fixed points: a non-null
result of `normalizeHex` is itself a valid hex, and normalizing it again
returns it unchanged. -/
theorem c10_normalize_closure (s v : String) (h : normalizeHex s = some v) :
    isValidHex v = true ∧ normalizeHex v = some v := by
  unfold normalizeHex at h
  rw [Option.map_eq_some'] at h
  obtain ⟨lv, hlv, hmk⟩ := h
  obtain ⟨hlen, hupper⟩ := normalizeHexL_shape hlv
  have htl : v.toList = lv := by rw [← hmk]; rfl
  cases hl : lv with
  | nil => rw [hl] at hlen; simp at hlen
  | cons c t =>
      have hc : isUpperHexChar c = true := hupper c (by rw [hl]; exact List.mem_cons_self c t)
      have hstrip : stripHashL lv = lv := by
        rw [hl]; exact stripHashL_of_ne_hash (isUpperHexChar_ne_hash hc)
      rw [← hl] at *
      have hhex : ∀ a ∈ stripHashL lv, isHexChar a = true := by
        rw [hstrip]; exact fun a ha => isHexChar_of_isUpperHexChar (hupper a ha)
      have hv6 : (stripHashL lv).length = 6 := by rw [hstrip]; exact hlen
      have hvalid : isValidHexL lv = true := isValidHexL_iff.mpr ⟨Or.inr hv6, hhex⟩
      refine ⟨?_, ?_⟩
      · unfold isValidHex
        rw [htl]
        exact hvalid
      · unfold normalizeHex normalizeHexL
        rw [htl, if_pos hvalid, if_neg (by omega), hstrip,
          jsToUpperL_fixed hupper, ← htl]
        simp

/-- Witness for C10: the closure property applied at `"#abc"`. -/
theorem c10_witness : isValidHex "AABBCC" = true ∧
    normalizeHex "AABBCC" = some "AABBCC" :=
  c10_normalize_closure "#abc" "AABBCC" (by decide)

/-! ## Bounds on the WCAG ratio -/

theorem round_monotone {x y : ℝ} (h : x ≤ y) : round x ≤ round y := by
  rw [round_eq, round_eq]
  exact Int.floor_le_floor (by linarith)

theorem gammaDecode_nonneg {c : ℝ} (h : 0 ≤ c) : 0 ≤ gammaDecode c := by
  unfold gammaDecode
  split
  · positivity
  · exact Real.rpow_nonneg (div_nonneg (by linarith) (by norm_num)) _

theorem gammaDecode_le_one {c : ℝ} (_h0 : 0 ≤ c) (h1 : c ≤ 1) : gammaDecode c ≤ 1 := by
  unfold gammaDecode
  split
  · rw [div_le_one (by norm_num)]; linarith
  · calc ((c + 0.055) / 1.055) ^ (2.4 : ℝ) ≤ 1 ^ (2.4 : ℝ) := by
          apply Real.rpow_le_rpow (div_nonneg (by linarith) (by norm_num))
            (by rw [div_le_one (by norm_num)]; linarith) (by norm_num)
      _ = 1 := Real.one_rpow _

theorem relativeLuminance_nonneg (c : Rgb) : 0 ≤ relativeLuminance c := by
  unfold relativeLuminance
  have h1 := gammaDecode_nonneg (c := (c.r : ℝ) / 255) (by positivity)
  have h2 := gammaDecode_nonneg (c := (c.g : ℝ) / 255) (by positivity)
  have h3 := gammaDecode_nonneg (c := (c.b : ℝ) / 255) (by positivity)
  linarith

theorem relativeLuminance_le_one {c : Rgb} (hr : c.r ≤ 255) (hg : c.g ≤ 255)
    (hb : c.b ≤ 255) : relativeLuminance c ≤ 1 := by
  unfold relativeLuminance
  have hr' : (c.r : ℝ) / 255 ≤ 1 := by
    rw [div_le_one (by norm_num)]; exact_mod_cast hr
  have hg' : (c.g : ℝ) / 255 ≤ 1 := by
    rw [div_le_one (by norm_num)]; exact_mod_cast hg
  have hb' : (c.b : ℝ) / 255 ≤ 1 := by
    rw [div_le_one (by norm_num)]; exact_mod_cast hb
  have h1 := gammaDecode_le_one (by positivity) hr'
  have h2 := gammaDecode_le_one (by positivity) hg'
  have h3 := gammaDecode_le_one (by positivity) hb'
  have g1 := gammaDecode_nonneg (c := (c.r : ℝ) / 255) (by positivity)
  have g2 := gammaDecode_nonneg (c := (c.g : ℝ) / 255) (by positivity)
  have g3 := gammaDecode_nonneg (c := (c.b : ℝ) / 255) (by positivity)
  linarith

theorem hexDigitVal_le {ch : Char} {n : ℕ} (h : hexDigitVal ch = some n) : n ≤ 15 := by
  unfold hexDigitVal at h
  split at h
  · injection h with h'; omega
  · split at h
    · injection h with h'; omega
    · split at h
      · injection h with h'; omega
      · exact absurd h (by simp)

theorem hexByte_le {hi lo : Char} {n : ℕ} (h : hexByte hi lo = some n) : n ≤ 255 := by
  unfold hexByte at h
  cases hhi : hexDigitVal hi with
  | none => rw [hhi] at h; simp at h
  | some a =>
      cases hlo : hexDigitVal lo with
      | none => rw [hhi, hlo] at h; simp at h
      | some b =>
          rw [hhi, hlo] at h
          simp at h
          have ha := hexDigitVal_le hhi
          have hb := hexDigitVal_le hlo
          omega

/-- Channel bounds for the three-bind `Rgb` builder shared by both parser
arms. -/
theorem rgbBind_le {o1 o2 o3 : Option ℕ} {c : Rgb}
    (h : (do
      let r ← o1
      let g ← o2
      let b ← o3
      pure (Rgb.mk r g b)) = some c)
    (h1 : ∀ n, o1 = some n → n ≤ 255) (h2 : ∀ n, o2 = some n → n ≤ 255)
    (h3 : ∀ n, o3 = some n → n ≤ 255) : c.r ≤ 255 ∧ c.g ≤ 255 ∧ c.b ≤ 255 := by
  cases ho1 : o1 with
  | none => rw [ho1] at h; simp at h
  | some r =>
      cases ho2 : o2 with
      | none => rw [ho1, ho2] at h; simp at h
      | some g =>
          cases ho3 : o3 with
          | none => rw [ho1, ho2, ho3] at h; simp at h
          | some b =>
              rw [ho1, ho2, ho3] at h
              simp at h
              rw [← h]
              exact ⟨h1 r ho1, h2 g ho2, h3 b ho3⟩

theorem parseHexColorL_channels {l : List Char} {c : Rgb}
    (h : parseHexColorL l = some c) : c.r ≤ 255 ∧ c.g ≤ 255 ∧ c.b ≤ 255 := by
  unfold parseHexColorL at h
  split at h
  · exact rgbBind_le h (fun n hn => hexByte_le hn) (fun n hn => hexByte_le hn)
      (fun n hn => hexByte_le hn)
  · exact rgbBind_le h (fun n hn => hexByte_le hn) (fun n hn => hexByte_le hn)
      (fun n hn => hexByte_le hn)
  · exact absurd h (by simp)

theorem contrastOfLums_bounds {l1 l2 : ℝ} (h1 : 0 ≤ l1) (h2 : l1 ≤ 1) (h3 : 0 ≤ l2)
    (h4 : l2 ≤ 1) : 1 ≤ contrastOfLums l1 l2 ∧ contrastOfLums l1 l2 ≤ 21 := by
  unfold contrastOfLums
  have hmin : (0 : ℝ) ≤ min l1 l2 := le_min h1 h3
  have hminpos : (0 : ℝ) < min l1 l2 + 0.05 := by linarith
  have hle : min l1 l2 ≤ max l1 l2 := min_le_max
  have hmax1 : max l1 l2 ≤ 1 := max_le h2 h4
  constructor
  · rw [le_div_iff₀ hminpos]; linarith
  · rw [div_le_iff₀ hminpos]; linarith

theorem contrastOfLums_comm (l1 l2 : ℝ) : contrastOfLums l1 l2 = contrastOfLums l2 l1 := by
  unfold contrastOfLums
  rw [max_comm, min_comm]

/-- Bounds on the unrounded ratio of two parseable colors. -/
theorem wcagContrast_bounds {fg bg : String} {a b : Rgb}
    (ha : parseHexColor fg = some a) (hb : parseHexColor bg = some b) :
    1 ≤ wcagContrast fg bg ∧ wcagContrast fg bg ≤ 21 := by
  obtain ⟨har, hag, hab⟩ := parseHexColorL_channels ha
  obtain ⟨hbr, hbg, hbb⟩ := parseHexColorL_channels hb
  unfold wcagContrast
  rw [ha, hb]
  exact contrastOfLums_bounds (relativeLuminance_nonneg a)
    (relativeLuminance_le_one har hag hab) (relativeLuminance_nonneg b)
    (relativeLuminance_le_one hbr hbg hbb)

theorem round2_bounds {x : ℝ} (h1 : 1 ≤ x) (h2 : x ≤ 21) :
    1 ≤ round2 x ∧ round2 x ≤ 21 := by
  unfold round2
  have hlo : (100 : ℤ) ≤ round (x * 100) := by
    have : round ((100 : ℝ)) ≤ round (x * 100) := round_monotone (by linarith)
    simpa using this
  have hhi : round (x * 100) ≤ (2100 : ℤ) := by
    have : round (x * 100) ≤ round ((2100 : ℝ)) := round_monotone (by linarith)
    simpa using this
  constructor
  · rw [le_div_iff₀ (by norm_num)]
    calc (1 : ℝ) * 100 = ((100 : ℤ) : ℝ) := by norm_num
      _ ≤ _ := by exact_mod_cast hlo
  · rw [div_le_iff₀ (by norm_num)]
    calc ((round (x * 100) : ℤ) : ℝ) ≤ ((2100 : ℤ) : ℝ) := by exact_mod_cast hhi
      _ = 21 * 100 := by norm_num

/-- C4 — Contrast ratio correctness: on colors `a` and `b` read from the two
hex strings, `calculateContrast` lies in `[1, 21]`, carries exactly two
decimal places, and is the two-decimal rounding of the WCAG
relative-luminance formula `(L_lighter + 0.05) / (L_darker + 0.05)` over the
piecewise-gamma-decoded, 0.2126/0.7152/0.0722-weighted channel luminances. -/
theorem c4_calculateContrast_correct (fg bg : String) (a b : Rgb)
    (ha : parseHexColor ("#" ++ fg) = some a) (hb : parseHexColor ("#" ++ bg) = some b) :
    1 ≤ calculateContrast fg bg ∧ calculateContrast fg bg ≤ 21 ∧
    (∃ k : ℤ, calculateContrast fg bg * 100 = k) ∧
    calculateContrast fg bg =
      round2 (contrastOfLums (relativeLuminance a) (relativeLuminance b)) := by
  obtain ⟨h1, h2⟩ := wcagContrast_bounds ha hb
  obtain ⟨hr1, hr2⟩ := round2_bounds h1 h2
  refine ⟨hr1, hr2, ⟨round (wcagContrast ("#" ++ fg) ("#" ++ bg) * 100), ?_⟩, ?_⟩
  · unfold calculateContrast round2
    field_simp
  · unfold calculateContrast wcagContrast
    rw [ha, hb]

/-- Witness for C4: applied to black on white. -/
theorem c4_witness : 1 ≤ calculateContrast "000000" "FFFFFF" ∧
    calculateContrast "000000" "FFFFFF" ≤ 21 ∧
    (∃ k : ℤ, calculateContrast "000000" "FFFFFF" * 100 = k) ∧
    calculateContrast "000000" "FFFFFF" =
      round2 (contrastOfLums (relativeLuminance ⟨0, 0, 0⟩)
        (relativeLuminance ⟨255, 255, 255⟩)) :=
  c4_calculateContrast_correct "000000" "FFFFFF" ⟨0, 0, 0⟩ ⟨255, 255, 255⟩
    (by decide) (by decide)

/-- C8 — Symmetry: the rounded contrast ratio does not depend on the order
of its two arguments. -/
theorem c8_calculateContrast_symm (a b : String) (_ha : isValidHex a = true)
    (_hb : isValidHex b = true) : calculateContrast a b = calculateContrast b a := by
  unfold calculateContrast wcagContrast
  cases parseHexColor ("#" ++ a) <;> cases parseHexColor ("#" ++ b) <;>
    simp [contrastOfLums_comm]

/-- Witness for C8: applied to a black/white pair. -/
theorem c8_witness : calculateContrast "000000" "FFFFFF" =
    calculateContrast "FFFFFF" "000000" :=
  c8_calculateContrast_symm "000000" "FFFFFF" (by decide) (by decide)

/-! ## Suggestion nullability (C3) -/

/-- The pass flag the active target level keys off: `passesAA` under AA,
`passesAAA` under AAA. -/
def activePasses (r : ContrastResult) (targetLevel : WcagLevel) : Prop :=
  match targetLevel with
  | .AA => r.passesAA
  | .AAA => r.passesAAA

open Classical in
theorem calculateContrastResult_suggestedFix (fgId fgHex bgId bgHex : String)
    (lvl : WcagLevel) :
    (calculateContrastResult fgId fgHex bgId bgHex lvl).suggestedFix =
      if ¬ activePasses (calculateContrastResult fgId fgHex bgId bgHex lvl) lvl ∧
          fgId ≠ bgId
      then findNearestAccessible fgHex bgHex (getTargetRatio lvl false)
      else none := by
  cases lvl <;>
    · unfold calculateContrastResult activePasses
      congr 1

/-- C3 — Suggestion nullability: the result of `calculateContrastResult`
carries a non-null `suggestedFix` attempt only when the pair fails the
active level's normal-text flag and the two ids differ; when the pair
passes, or the ids coincide (even with different hex values), the
suggestion is null; when it is attempted it is exactly the search at the
level's target ratio, 4.5 for AA and 7 for AAA. -/
theorem c3_suggestion_nullability (fgId fgHex bgId bgHex : String) (lvl : WcagLevel) :
    ((calculateContrastResult fgId fgHex bgId bgHex lvl).suggestedFix ≠ none →
      ¬ activePasses (calculateContrastResult fgId fgHex bgId bgHex lvl) lvl ∧
        fgId ≠ bgId) ∧
    (activePasses (calculateContrastResult fgId fgHex bgId bgHex lvl) lvl ∨ fgId = bgId →
      (calculateContrastResult fgId fgHex bgId bgHex lvl).suggestedFix = none) ∧
    (¬ activePasses (calculateContrastResult fgId fgHex bgId bgHex lvl) lvl → fgId ≠ bgId →
      (calculateContrastResult fgId fgHex bgId bgHex lvl).suggestedFix =
        findNearestAccessible fgHex bgHex (getTargetRatio lvl false)) ∧
    getTargetRatio WcagLevel.AA false = 4.5 ∧ getTargetRatio WcagLevel.AAA false = 7 := by
  rw [ne_eq]
  rw [calculateContrastResult_suggestedFix fgId fgHex bgId bgHex lvl]
  by_cases hcond : ¬ activePasses (calculateContrastResult fgId fgHex bgId bgHex lvl) lvl ∧
      fgId ≠ bgId
  · rw [if_pos hcond]
    exact ⟨fun _ => hcond, fun hor => absurd hor (by tauto), fun _ _ => rfl, rfl, rfl⟩
  · rw [if_neg hcond]
    exact ⟨fun hne => absurd rfl hne, fun _ => rfl, fun hp hne => absurd ⟨hp, hne⟩ hcond,
      rfl, rfl⟩

/-- Witness for C3: a self-pair (identical ids, different hex values) never
receives a suggestion. -/
theorem c3_witness :
    (calculateContrastResult "a" "000000" "a" "FFFFFF" WcagLevel.AA).suggestedFix = none :=
  (c3_suggestion_nullability "a" "000000" "a" "FFFFFF" WcagLevel.AA).2.1 (Or.inr rfl)

/-! ## Matrix and summary cardinalities (C5) -/

theorem ccr_foregroundId (fgId fgHex bgId bgHex : String) (lvl : WcagLevel) :
    (calculateContrastResult fgId fgHex bgId bgHex lvl).foregroundId = fgId := rfl

theorem ccr_backgroundId (fgId fgHex bgId bgHex : String) (lvl : WcagLevel) :
    (calculateContrastResult fgId fgHex bgId bgHex lvl).backgroundId = bgId := rfl

theorem length_flatMap_map {α β γ : Type} (l1 : List α) (l2 : List β) (g : α → β → γ) :
    (l1.flatMap fun a => l2.map (g a)).length = l1.length * l2.length := by
  induction l1 with
  | nil => simp
  | cons a t ih => simp [List.flatMap_cons, ih, Nat.succ_mul, Nat.add_comm]

/-- Filtering one inner row of the matrix on distinct ids is filtering the
palette itself on distinct ids. -/
theorem inner_filter_length (colors : List ColorEntry) (lvl : WcagLevel)
    (fg : ColorEntry) :
    ((colors.map fun bg =>
        calculateContrastResult fg.id fg.hex bg.id bg.hex lvl).filter fun r =>
          decide (r.foregroundId ≠ r.backgroundId)).length =
      (colors.filter fun bg => decide (fg.id ≠ bg.id)).length := by
  rw [List.filter_map, List.length_map]
  rfl

/-- With pairwise-distinct ids, each palette entry disagrees with all but
itself. -/
theorem filter_ne_id_length {colors : List ColorEntry} {fg : ColorEntry}
    (hmem : fg ∈ colors) (hnodup : (colors.map ColorEntry.id).Nodup) :
    (colors.filter fun bg => decide (fg.id ≠ bg.id)).length = colors.length - 1 := by
  induction colors with
  | nil => exact absurd hmem (by simp)
  | cons b t ih =>
      rw [List.map_cons, List.nodup_cons] at hnodup
      obtain ⟨hbid, htn⟩ := hnodup
      rcases List.mem_cons.mp hmem with rfl | hft
      · have hne : ∀ bg ∈ t, fg.id ≠ bg.id := fun bg hbg heq =>
          hbid (heq ▸ List.mem_map_of_mem ColorEntry.id hbg)
        rw [List.filter_cons, if_neg (by simp)]
        rw [List.filter_eq_self.mpr fun bg hbg => decide_eq_true (hne bg hbg)]
        simp
      · have hfgb : fg.id ≠ b.id := fun heq =>
          hbid (heq ▸ List.mem_map_of_mem ColorEntry.id hft)
        rw [List.filter_cons, if_pos (decide_eq_true hfgb), List.length_cons,
          ih hft htn]
        have : 1 ≤ t.length := List.length_pos.mpr (List.ne_nil_of_mem hft)
        rw [List.length_cons]
        omega

/-- Row-by-row sum of the distinct-id pairs of the matrix. -/
theorem matrix_filter_length (outer colors : List ColorEntry) (lvl : WcagLevel)
    (hnodup : (colors.map ColorEntry.id).Nodup) (hmem : ∀ fg ∈ outer, fg ∈ colors) :
    (((outer.flatMap fun fg => colors.map fun bg =>
        calculateContrastResult fg.id fg.hex bg.id bg.hex lvl)).filter fun r =>
          decide (r.foregroundId ≠ r.backgroundId)).length =
      outer.length * (colors.length - 1) := by
  induction outer with
  | nil => simp
  | cons a t ih =>
      rw [List.flatMap_cons, List.filter_append, List.length_append,
        inner_filter_length colors lvl a,
        filter_ne_id_length (hmem a (List.mem_cons_self a t)) hnodup,
        ih fun fg hfg => hmem fg (List.mem_cons_of_mem a hfg),
        List.length_cons, Nat.succ_mul, Nat.add_comm]

/-- C5 — Matrix and summary cardinalities: the matrix over `N` colors has
exactly `N²` entries; with pairwise-distinct ids the summary's `total`
counts only the `N² − N` pairs with differing ids; and the percentage is
`round(passing / total × 100)` with `0` in place of a division by zero. -/
theorem c5_matrix_cardinalities (colors : List ColorEntry) (lvl : WcagLevel)
    (hnodup : (colors.map ColorEntry.id).Nodup) :
    (generateContrastMatrix colors lvl).length = colors.length ^ 2 ∧
    (getContrastSummary (generateContrastMatrix colors lvl) lvl).total =
      colors.length ^ 2 - colors.length ∧
    (∀ matrix : List ContrastResult,
      ((getContrastSummary matrix lvl).total = 0 →
        (getContrastSummary matrix lvl).percentage = 0) ∧
      (0 < (getContrastSummary matrix lvl).total →
        (getContrastSummary matrix lvl).percentage =
          round (((getContrastSummary matrix lvl).passing : ℚ) /
            ((getContrastSummary matrix lvl).total : ℚ) * 100))) := by
  refine ⟨?_, ?_, ?_⟩
  · rw [generateContrastMatrix, length_flatMap_map, pow_two]
  · have h := matrix_filter_length colors colors lvl hnodup fun fg hfg => hfg
    rw [getContrastSummary, generateContrastMatrix]
    simp only []
    rw [h]
    have hsq : colors.length * colors.length = colors.length ^ 2 := (pow_two _).symm
    cases hn : colors.length with
    | zero => simp
    | succ k =>
        have : (k + 1) * (k + 1) = (k + 1) * k + (k + 1) := by ring
        simp only [Nat.succ_sub_one, pow_two]
        omega
  · intro matrix
    rw [getContrastSummary]
    simp only []
    constructor
    · intro h
      rw [h] at *
      simp
    · intro h
      rw [if_pos h]

/-- Witness for C5: the spec's two-color scenario palette. -/
theorem c5_witness :
    (generateContrastMatrix [⟨"a", "000000"⟩, ⟨"b", "FFFFFF"⟩] WcagLevel.AA).length = 4 ∧
    (getContrastSummary
      (generateContrastMatrix [⟨"a", "000000"⟩, ⟨"b", "FFFFFF"⟩] WcagLevel.AA)
      WcagLevel.AA).total = 2 := by
  have h := c5_matrix_cardinalities [⟨"a", "000000"⟩, ⟨"b", "FFFFFF"⟩] WcagLevel.AA
    (by decide)
  exact ⟨h.1, h.2.1⟩

/-! ## Properties of the lightness search -/

/-- Every candidate the loop records was formatted successfully and meets
the target ratio against the background, as re-measured on the formatted
(post-clamp) hex string. -/
theorem searchLightnessAux_best_spec (fg : Oklch) (bgColor : String) (targetRatio : ℝ)
    (sd : Prop) (fh : Oklch → Option String) :
    ∀ (fuel : ℕ) (low high : ℝ) (best : Option Oklch),
      (∀ c, best = some c → ∃ s, fh c = some s ∧ wcagContrast s bgColor ≥ targetRatio) →
      ∀ c, (searchLightnessAux fg bgColor targetRatio sd fh fuel low high best).1 = some c →
        ∃ s, fh c = some s ∧ wcagContrast s bgColor ≥ targetRatio := by
  intro fuel
  induction fuel with
  | zero =>
      intro low high best hbest c hc
      rw [searchLightnessAux] at hc
      exact hbest c hc
  | succ n ih =>
      intro low high best hbest c hc
      rw [searchLightnessAux] at hc
      by_cases hwidth : high - low > LIGHTNESS_PRECISION
      · rw [if_pos hwidth] at hc
        simp only [] at hc
        cases hfh : fh (setL fg ((low + high) / 2)) with
        | none =>
            rw [hfh] at hc
            exact hbest c hc
        | some testHex =>
            rw [hfh] at hc
            simp only [] at hc
            by_cases hr : wcagContrast testHex bgColor ≥ targetRatio
            · rw [if_pos hr] at hc
              have hgood : ∀ c', some (setL fg ((low + high) / 2)) = some c' →
                  ∃ s, fh c' = some s ∧ wcagContrast s bgColor ≥ targetRatio := by
                intro c' hc'
                obtain rfl := Option.some_inj.mp hc'
                exact ⟨testHex, hfh, hr⟩
              by_cases hsd : sd
              · rw [if_pos hsd] at hc
                exact ih _ _ _ hgood c hc
              · rw [if_neg hsd] at hc
                exact ih _ _ _ hgood c hc
            · rw [if_neg hr] at hc
              by_cases hsd : sd
              · rw [if_pos hsd] at hc
                exact ih _ _ _ hbest c hc
              · rw [if_neg hsd] at hc
                exact ih _ _ _ hbest c hc
      · rw [if_neg hwidth] at hc
        exact hbest c hc

/-- A non-null `searchLightness` result was formatted successfully with a
passing re-measured ratio. -/
theorem searchLightness_some_spec {fg : Oklch} {bgColor : String} {targetRatio : ℝ}
    {sd : Prop} {fh : Oklch → Option String} {c : Oklch}
    (h : searchLightness fg bgColor targetRatio sd fh = some c) :
    ∃ s, fh c = some s ∧ wcagContrast s bgColor ≥ targetRatio := by
  unfold searchLightness searchLightnessRun at h
  exact searchLightnessAux_best_spec fg bgColor targetRatio sd fh MAX_ITERATIONS _ _ none
    (fun c' hc' => absurd hc' (by simp)) c h

theorem wcagContrast_congr_left {a a' : String}
    (hp : parseHexColor a = parseHexColor a') (bg : String) :
    wcagContrast a bg = wcagContrast a' bg := by
  unfold wcagContrast
  rw [hp]

/-- C1 — Fix validity: whenever the search returns a hex, that hex measures
at least the target ratio against the background (on the unrounded WCAG
ratio; the two-decimal display rounding never drops a passing value below
an exact two-decimal target).  Parametric in the OKLCH conversions; the
`hfh` hypothesis says `formatHex` output re-parses the same after dropping
the `#` and uppercasing, which holds of culori's lowercase `#rrggbb`
output since hex parsing is case-insensitive. -/
theorem c1_fix_validity (ok : String → Option Oklch) (fh : Oklch → Option String)
    (foregroundHex backgroundHex : String) (targetRatio : ℝ) (result : String)
    (hfh : ∀ c s, fh c = some s →
      parseHexColor ("#" ++ jsUpperNoHash s) = parseHexColor s)
    (h : findNearestAccessibleG ok fh foregroundHex backgroundHex targetRatio =
      some result) :
    wcagContrast ("#" ++ result) ("#" ++ backgroundHex) ≥ targetRatio := by
  simp only [findNearestAccessibleG] at h
  cases hok : ok ("#" ++ foregroundHex) with
  | none =>
      rw [hok] at h
      exact absurd h (by simp)
  | some fgc =>
      rw [hok] at h
      simp only [] at h
      by_cases hcur : wcagContrast ("#" ++ foregroundHex) ("#" ++ backgroundHex) ≥
          targetRatio
      · rw [if_pos hcur] at h
        obtain rfl := Option.some_inj.mp h
        exact hcur
      · rw [if_neg hcur] at h
        cases hres : (match searchLightness fgc ("#" ++ backgroundHex) targetRatio
            (fgc.l > match ok ("#" ++ backgroundHex) with
              | some bg => bg.l
              | none => 0.5) fh with
          | some r => some r
          | none => searchLightness fgc ("#" ++ backgroundHex) targetRatio
              (¬ fgc.l > match ok ("#" ++ backgroundHex) with
                | some bg => bg.l
                | none => 0.5) fh) with
        | none =>
            rw [hres] at h
            exact absurd h (by simp)
        | some rc =>
            rw [hres] at h
            simp only [] at h
            have hrc : ∃ s, fh rc = some s ∧
                wcagContrast s ("#" ++ backgroundHex) ≥ targetRatio := by
              cases hprim : searchLightness fgc ("#" ++ backgroundHex) targetRatio
                  (fgc.l > match ok ("#" ++ backgroundHex) with
                    | some bg => bg.l
                    | none => 0.5) fh with
              | some r =>
                  rw [hprim] at hres
                  obtain rfl := Option.some_inj.mp hres
                  exact searchLightness_some_spec hprim
              | none =>
                  rw [hprim] at hres
                  exact searchLightness_some_spec hres
            obtain ⟨s, hs, hratio⟩ := hrc
            rw [hs] at h
            simp only [Option.some_inj] at h
            rw [← h]
            rw [wcagContrast_congr_left (hfh rc s hs) ("#" ++ backgroundHex)]
            exact hratio

/-- Witness for C1: with trivial conversions, an already-passing pair
returns through the early path and the returned hex indeed measures at
least the (trivial) target. -/
theorem c1_witness :
    wcagContrast ("#" ++ "FFFFFF") ("#" ++ "000000") ≥ 1 := by
  apply c1_fix_validity (fun _ => some ⟨1, 0, 0⟩) (fun _ => some "#000000")
    "FFFFFF" "000000" 1 "FFFFFF"
  · intro c s hcs
    obtain rfl := Option.some_inj.mp hcs
    decide
  · unfold findNearestAccessibleG
    simp only []
    rw [if_pos ((wcagContrast_bounds (a := ⟨255, 255, 255⟩) (b := ⟨0, 0, 0⟩)
      (by decide) (by decide)).1)]

/-! ## The already-passing early return (C2) -/

/-- `findNearestAccessible`'s early return: when the current ratio already
meets the target (and the foreground parses), the input foreground hex
string comes back as-is. -/
theorem findNearestAccessibleG_early (ok : String → Option Oklch)
    (fh : Oklch → Option String) (foregroundHex backgroundHex : String)
    (targetRatio : ℝ) (c : Oklch) (hok : ok ("#" ++ foregroundHex) = some c)
    (hge : wcagContrast ("#" ++ foregroundHex) ("#" ++ backgroundHex) ≥ targetRatio) :
    findNearestAccessibleG ok fh foregroundHex backgroundHex targetRatio =
      some foregroundHex := by
  simp only [findNearestAccessibleG]
  rw [hok]
  simp only []
  rw [if_pos hge]

/-- C2 (amended) — Idempotent no-op: when the pair already meets the target,
`findNearestAccessible` returns the foreground hex string *unchanged* (not
normalized); this coincides with the normalized form exactly when the input
is already in normalized 6-digit-uppercase form. -/
theorem c2_amended_already_passing (ok : String → Option Oklch)
    (fh : Oklch → Option String) (foregroundHex backgroundHex : String)
    (targetRatio : ℝ) (c : Oklch) (hok : ok ("#" ++ foregroundHex) = some c)
    (hge : wcagContrast ("#" ++ foregroundHex) ("#" ++ backgroundHex) ≥ targetRatio) :
    findNearestAccessibleG ok fh foregroundHex backgroundHex targetRatio =
      some foregroundHex ∧
    (normalizeHex foregroundHex = some foregroundHex →
      findNearestAccessibleG ok fh foregroundHex backgroundHex targetRatio =
        normalizeHex foregroundHex) := by
  refine ⟨findNearestAccessibleG_early ok fh _ _ _ c hok hge, fun hnorm => ?_⟩
  rw [findNearestAccessibleG_early ok fh _ _ _ c hok hge, hnorm]

/-- Counterexample to C2 as stated: `"ffffff"` on `"000000"` already meets a
target of 1, and the search returns the lowercase `"ffffff"` unchanged,
not the normalized `"FFFFFF"`. -/
theorem c2_counterexample :
    findNearestAccessible "ffffff" "000000" 1 = some "ffffff" ∧
    normalizeHex "ffffff" = some "FFFFFF" ∧
    (some "ffffff" : Option String) ≠ some "FFFFFF" := by
  refine ⟨?_, by decide, by decide⟩
  apply findNearestAccessibleG_early oklchM formatHexM "ffffff" "000000" 1
    ⟨((255 : ℝ) + 255 + 255) / 765, 0, 0⟩
  · rw [oklchM, show parseHexColor ("#" ++ "ffffff") = some ⟨255, 255, 255⟩ from by decide]
    rfl
  · exact (wcagContrast_bounds (a := ⟨255, 255, 255⟩) (b := ⟨0, 0, 0⟩)
      (by decide) (by decide)).1

/-- Witness for the amended C2: on an already-normalized foreground the
unchanged result and the normalized result agree. -/
theorem c2_witness :
    findNearestAccessible "FFFFFF" "000000" 1 = normalizeHex "FFFFFF" := by
  have h := c2_amended_already_passing oklchM formatHexM "FFFFFF" "000000" 1
    ⟨((255 : ℝ) + 255 + 255) / 765, 0, 0⟩
    (by rw [oklchM, show parseHexColor ("#" ++ "FFFFFF") = some ⟨255, 255, 255⟩ from
      by decide]; rfl)
    ((wcagContrast_bounds (a := ⟨255, 255, 255⟩) (b := ⟨0, 0, 0⟩)
      (by decide) (by decide)).1)
  exact h.2 (by decide)

/-! ## Search direction (C6) -/

/-- C6 — Search direction rule, on a failing, both-sides-parseable pair:
the primary search direction is darken (`shouldDarken`, lightness range
`[0, l]` toward 0) exactly when the foreground's lightness strictly exceeds
the background's, lighten (range `[l, 1]` toward 1) otherwise; the result
comes from the primary direction whenever it finds a candidate, and the
opposite direction is consulted only when the primary returns none. -/
theorem c6_direction_rule (ok : String → Option Oklch) (fh : Oklch → Option String)
    (foregroundHex backgroundHex : String) (targetRatio : ℝ) (cf cb : Oklch)
    (hok : ok ("#" ++ foregroundHex) = some cf)
    (hbg : ok ("#" ++ backgroundHex) = some cb)
    (hfail : ¬ wcagContrast ("#" ++ foregroundHex) ("#" ++ backgroundHex) ≥ targetRatio) :
    (cf.l > cb.l →
      searchLightnessRun cf ("#" ++ backgroundHex) targetRatio (cf.l > cb.l) fh =
        searchLightnessAux cf ("#" ++ backgroundHex) targetRatio (cf.l > cb.l) fh
          MAX_ITERATIONS 0 cf.l none) ∧
    (¬ cf.l > cb.l →
      searchLightnessRun cf ("#" ++ backgroundHex) targetRatio (cf.l > cb.l) fh =
        searchLightnessAux cf ("#" ++ backgroundHex) targetRatio (cf.l > cb.l) fh
          MAX_ITERATIONS cf.l 1 none) ∧
    (∀ r, searchLightness cf ("#" ++ backgroundHex) targetRatio (cf.l > cb.l) fh =
        some r →
      findNearestAccessibleG ok fh foregroundHex backgroundHex targetRatio =
        match fh r with
        | some hexResult => some (jsUpperNoHash hexResult)
        | none => none) ∧
    (searchLightness cf ("#" ++ backgroundHex) targetRatio (cf.l > cb.l) fh = none →
      findNearestAccessibleG ok fh foregroundHex backgroundHex targetRatio =
        match searchLightness cf ("#" ++ backgroundHex) targetRatio
            (¬ cf.l > cb.l) fh with
        | some r =>
            match fh r with
            | some hexResult => some (jsUpperNoHash hexResult)
            | none => none
        | none => none) := by
  refine ⟨fun hgt => ?_, fun hle => ?_, fun r hr => ?_, fun hnone => ?_⟩
  · simp only [searchLightnessRun]
    rw [if_pos hgt, if_pos hgt]
  · simp only [searchLightnessRun]
    rw [if_neg hle, if_neg hle]
  · simp only [findNearestAccessibleG]
    rw [hok]
    simp only []
    rw [if_neg hfail, hbg]
    simp only []
    rw [hr]
  · simp only [findNearestAccessibleG]
    rw [hok]
    simp only []
    rw [if_neg hfail, hbg]
    simp only []
    rw [hnone]
    cases searchLightness cf ("#" ++ backgroundHex) targetRatio (¬ cf.l > cb.l) fh <;>
      rfl

/-- The same parse gives the same luminance on both sides, so a self pair
measures exactly 1. -/
theorem wcagContrast_self {x : String} {a : Rgb} (hx : parseHexColor x = some a) :
    wcagContrast x x = 1 := by
  unfold wcagContrast
  rw [hx]
  simp only []
  unfold contrastOfLums
  rw [max_self, min_self]
  have := relativeLuminance_nonneg a
  field_simp

/-- When formatting always fails, the loop never records a candidate. -/
theorem searchLightnessAux_fh_none (fg : Oklch) (bgColor : String) (targetRatio : ℝ)
    (sd : Prop) :
    ∀ (fuel : ℕ) (low high : ℝ) (best : Option Oklch),
      (searchLightnessAux fg bgColor targetRatio sd (fun _ => none)
        fuel low high best).1 = best := by
  intro fuel
  induction fuel with
  | zero =>
      intro low high best
      rw [searchLightnessAux]
  | succ n _ =>
      intro low high best
      rw [searchLightnessAux]
      by_cases hw : high - low > LIGHTNESS_PRECISION
      · rw [if_pos hw]
      · rw [if_neg hw]

theorem searchLightness_fh_none (fg : Oklch) (bgColor : String) (targetRatio : ℝ)
    (sd : Prop) :
    searchLightness fg bgColor targetRatio sd (fun _ => none) = none := by
  unfold searchLightness searchLightnessRun
  exact searchLightnessAux_fh_none fg bgColor targetRatio sd MAX_ITERATIONS _ _ none

/-- Witness for C6: a gray-on-itself pair fails AA; with conversions that
always fail to format, both search directions return none and the search
reports null. -/
theorem c6_witness :
    findNearestAccessibleG (fun _ => some ⟨0.5, 0, 0⟩) (fun _ => none)
      "808080" "808080" 4.5 = none := by
  have hfail : ¬ wcagContrast ("#" ++ "808080") ("#" ++ "808080") ≥ 4.5 := by
    rw [wcagContrast_self (a := ⟨128, 128, 128⟩) (by decide)]
    norm_num
  have h := c6_direction_rule (fun _ => some ⟨0.5, 0, 0⟩) (fun _ => none)
    "808080" "808080" 4.5 ⟨0.5, 0, 0⟩ ⟨0.5, 0, 0⟩ rfl rfl hfail
  rw [h.2.2.2 (searchLightness_fh_none _ _ _ _), searchLightness_fh_none]

/-! ## Termination of the lightness search (C7) -/

/-- The loop executes at most as many iterations as its remaining budget. -/
theorem searchLightnessAux_steps_le (fg : Oklch) (bgColor : String) (targetRatio : ℝ)
    (sd : Prop) (fh : Oklch → Option String) :
    ∀ (fuel : ℕ) (low high : ℝ) (best : Option Oklch),
      (searchLightnessAux fg bgColor targetRatio sd fh fuel low high best).2.1 ≤ fuel := by
  intro fuel
  induction fuel with
  | zero =>
      intro low high best
      rw [searchLightnessAux]
  | succ n ih =>
      intro low high best
      rw [searchLightnessAux]
      by_cases hw : high - low > LIGHTNESS_PRECISION
      · rw [if_pos hw]
        simp only []
        cases hfh : fh (setL fg ((low + high) / 2)) with
        | none => simp
        | some testHex =>
            simp only []
            by_cases hr : wcagContrast testHex bgColor ≥ targetRatio
            · rw [if_pos hr]
              by_cases hsd : sd
              · rw [if_pos hsd]
                have := ih ((low + high) / 2) high (some (setL fg ((low + high) / 2)))
                omega
              · rw [if_neg hsd]
                have := ih low ((low + high) / 2) (some (setL fg ((low + high) / 2)))
                omega
            · rw [if_neg hr]
              by_cases hsd : sd
              · rw [if_pos hsd]
                have := ih low ((low + high) / 2) best
                omega
              · rw [if_neg hsd]
                have := ih ((low + high) / 2) high best
                omega
      · rw [if_neg hw]
        simp

/-- If the bound width is already at or below the precision, the loop stops
immediately without consuming an iteration. -/
theorem searchLightnessAux_stop (fg : Oklch) (bgColor : String) (targetRatio : ℝ)
    (sd : Prop) (fh : Oklch → Option String) (fuel : ℕ) (low high : ℝ)
    (best : Option Oklch) (h : ¬ high - low > LIGHTNESS_PRECISION) :
    searchLightnessAux fg bgColor targetRatio sd fh fuel low high best =
      (best, 0, low, high) := by
  cases fuel with
  | zero => rw [searchLightnessAux]
  | succ n => rw [searchLightnessAux, if_neg h]

/-- C7 — Termination: the binary search runs at most `MAX_ITERATIONS = 50`
iterations, stops immediately once `high − low` is within
`LIGHTNESS_PRECISION = 0.001`, and `findNearestAccessible` consequently
always returns a value (a hex or null) with no external timeout. -/
theorem c7_search_terminates (fg : Oklch) (bgColor : String) (targetRatio : ℝ)
    (sd : Prop) (fh : Oklch → Option String) (ok : String → Option Oklch)
    (fgs bgs : String) :
    MAX_ITERATIONS = 50 ∧ LIGHTNESS_PRECISION = 0.001 ∧
    searchSteps fg bgColor targetRatio sd fh ≤ MAX_ITERATIONS ∧
    (∀ (fuel : ℕ) (low high : ℝ) (best : Option Oklch),
      ¬ high - low > LIGHTNESS_PRECISION →
      searchLightnessAux fg bgColor targetRatio sd fh fuel low high best =
        (best, 0, low, high)) ∧
    (findNearestAccessibleG ok fh fgs bgs targetRatio = none ∨
      ∃ s, findNearestAccessibleG ok fh fgs bgs targetRatio = some s) := by
  refine ⟨rfl, rfl, ?_, ?_, ?_⟩
  · unfold searchSteps searchLightnessRun
    exact searchLightnessAux_steps_le fg bgColor targetRatio sd fh MAX_ITERATIONS _ _ none
  · exact fun fuel low high best h =>
      searchLightnessAux_stop fg bgColor targetRatio sd fh fuel low high best h
  · cases h : findNearestAccessibleG ok fh fgs bgs targetRatio with
    | none => exact Or.inl rfl
    | some s => exact Or.inr ⟨s, rfl⟩

/-- Witness for C7: concrete bounds whose width is already below the
precision stop with zero iterations, and the step count is within the
ceiling. -/
theorem c7_witness :
    searchSteps ⟨0.5, 0, 0⟩ "#000000" 4.5 True (fun _ => none) ≤ MAX_ITERATIONS ∧
    searchLightnessAux ⟨0.5, 0, 0⟩ "#000000" 4.5 True (fun _ => none) MAX_ITERATIONS
      0 0.0005 none = (none, 0, 0, 0.0005) := by
  have h := c7_search_terminates ⟨0.5, 0, 0⟩ "#000000" 4.5 True (fun _ => none)
    (fun _ => none) "a" "b"
  exact ⟨h.2.2.1, h.2.2.2.1 MAX_ITERATIONS 0 0.0005 none
    (by rw [h.2.1]; norm_num)⟩

end AccPal
